import Mathlib

/-!
Shallow embedding of `src/differential-dataflow/src/difference.rs`.

The file defines the capability traits `IsZero`, `Semigroup`, `Monoid`,
`Abelian` and `Multiply`, and their instantiations for built-in signed and
unsigned integers, `std::num::Wrapping` signed integers, the `Present`
marker, tuples of arity 0 to 4, and `Vec<R>`.

Machine integers are modelled as mathematical integers together with an
explicit two's-complement wrap into the signed range of the bit width
(`% 2^w`); unsigned integers as naturals reduced `% 2^w`. Overflow of the
non-wrapping built-ins is thereby modelled with the wraparound value
semantics (the release-mode behaviour of the source language; the spec
treats overflow panics as a platform-defined caller risk outside this
core's contract). Borrows disappear in the embedding: `plus_equals`
takes its operands by value and returns the new receiver value, and
`clone` is the identity.
-/

/-! ## Signed built-in integers (`builtin_implementation!`, lines 74-100)

`i8 .. i128, isize`, parametrised by the bit width `w`. -/

namespace SignedInt

/-- Two's-complement wrap of an integer into the signed range
`[-2^(w-1), 2^(w-1))` of bit width `w`. -/
def wrap (w : Nat) (x : Int) : Int := (x + 2 ^ (w - 1)) % 2 ^ w - 2 ^ (w - 1)

/-- The value is a representable value of the `w`-bit signed type. -/
def inRange (w : Nat) (x : Int) : Prop := -(2 ^ (w - 1)) ≤ x ∧ x < 2 ^ (w - 1)

instance (w : Nat) (x : Int) : Decidable (inRange w x) := by
  unfold inRange; infer_instance

/-- Source: `fn is_zero(&self) -> bool { self == &0 }`. -/
def is_zero (x : Int) : Bool := x == 0

/-- Source: `fn plus_equals(&mut self, rhs: &Self) { *self += rhs; }`. -/
def plus_equals (w : Nat) (x rhs : Int) : Int := wrap w (x + rhs)

/-- Source: `fn zero() -> Self { 0 }`. -/
def zero : Int := 0

/-- Source (`builtin_abelian_implementation!`):
`fn negate(&mut self) { *self = -*self; }`. -/
def negate (w : Nat) (x : Int) : Int := wrap w (-x)

/-- Source: `fn multiply(self, rhs: &Self) -> Self { self * rhs }`. -/
def multiply (w : Nat) (x rhs : Int) : Int := wrap w (x * rhs)

end SignedInt

/-! ## Unsigned built-in integers (`builtin_implementation!`, lines 102-113)

`u8 .. u128, usize`: same operations, no `Abelian` implementation. -/

namespace UnsignedInt

/-- Reduction of a natural into the unsigned range `[0, 2^w)`. -/
def wrap (w : Nat) (x : Nat) : Nat := x % 2 ^ w

/-- The value is a representable value of the `w`-bit unsigned type. -/
def inRange (w : Nat) (x : Nat) : Prop := x < 2 ^ w

instance (w : Nat) (x : Nat) : Decidable (inRange w x) := by
  unfold inRange; infer_instance

/-- Source: `fn is_zero(&self) -> bool { self == &0 }`. -/
def is_zero (x : Nat) : Bool := x == 0

/-- Source: `fn plus_equals(&mut self, rhs: &Self) { *self += rhs; }`. -/
def plus_equals (w : Nat) (x rhs : Nat) : Nat := wrap w (x + rhs)

/-- Source: `fn zero() -> Self { 0 }`. -/
def zero : Nat := 0

/-- Source: `fn multiply(self, rhs: &Self) -> Self { self * rhs }`. -/
def multiply (w : Nat) (x rhs : Nat) : Nat := wrap w (x * rhs)

end UnsignedInt

/-! ## Wrapping signed integers (`wrapping_implementation!`, lines 122-152)

`std::num::Wrapping<i8> .. Wrapping<isize>`: all arithmetic is defined to
wrap modulo the bit width; a `Wrapping<iN>` value is modelled by the signed
integer it represents. -/

namespace WrappingInt

/-- Source: `fn is_zero(&self) -> bool { self == &std::num::Wrapping(0) }`. -/
def is_zero (x : Int) : Bool := x == 0

/-- Source: `fn plus_equals(&mut self, rhs: &Self) { *self += rhs; }`,
where `+=` on `Wrapping` wraps modulo the bit width by definition. -/
def plus_equals (w : Nat) (x rhs : Int) : Int := SignedInt.wrap w (x + rhs)

/-- Source: `fn zero() -> Self { std::num::Wrapping(0) }`. -/
def zero : Int := 0

/-- Source: `fn negate(&mut self) { *self = -*self; }`, wrapping negation. -/
def negate (w : Nat) (x : Int) : Int := SignedInt.wrap w (-x)

/-- Source: `fn multiply(self, rhs: &Self) -> Self { self * rhs }`. -/
def multiply (w : Nat) (x rhs : Int) : Int := SignedInt.wrap w (x * rhs)

end WrappingInt

/-! ## The roster of primitive instantiations (lines 102-120 and 147-152)

Which concrete types the three instantiation macros are invoked on. -/

/-- The twelve built-in fixed-width integer types. -/
inductive PrimTy where
  | i8 | i16 | i32 | i64 | i128 | isize
  | u8 | u16 | u32 | u64 | u128 | usize
deriving DecidableEq, Repr

/-- Whether the type is a signed integer type. -/
def PrimTy.signed : PrimTy → Bool
  | .i8 | .i16 | .i32 | .i64 | .i128 | .isize => true
  | .u8 | .u16 | .u32 | .u64 | .u128 | .usize => false

/-- The types `builtin_implementation!` is invoked on (lines 102-113):
these receive `IsZero`, `Semigroup`, `Monoid` and `Multiply`. -/
def PrimTy.hasBuiltin : PrimTy → Bool
  | .i8 | .i16 | .i32 | .i64 | .i128 | .isize => true
  | .u8 | .u16 | .u32 | .u64 | .u128 | .usize => true

/-- The types `builtin_abelian_implementation!` is invoked on
(lines 115-120): these additionally receive `Abelian` (negation). -/
def PrimTy.hasNegation : PrimTy → Bool
  | .i8 | .i16 | .i32 | .i64 | .i128 | .isize => true
  | .u8 | .u16 | .u32 | .u64 | .u128 | .usize => false

/-- The types `T` such that `wrapping_implementation!` is invoked on
`std::num::Wrapping<T>` (lines 147-152). -/
def PrimTy.hasWrappingVariant : PrimTy → Bool
  | .i8 | .i16 | .i32 | .i64 | .i128 | .isize => true
  | .u8 | .u16 | .u32 | .u64 | .u128 | .usize => false

/-! ## The `Present` marker (lines 155-184)

`pub struct Present;` — a zero-sized unit type. The source gives it
`IsZero`, `Semigroup` and `Multiply<T>` implementations only. -/

inductive Present where
  | mk
deriving DecidableEq, Repr

/-- Source: `fn is_zero(&self) -> bool { false }`. -/
def Present.is_zero (_ : Present) : Bool := false

/-- Source: `fn plus_equals(&mut self, _rhs: &Self) { }` — a no-op. -/
def Present.plus_equals (self : Present) (_ : Present) : Present := self

/-- Source: `fn multiply(self, rhs: &T) -> T { rhs.clone() }`
(clone is the identity in the embedding). -/
def Present.multiply {T : Type} (_ : Present) (rhs : T) : T := rhs

/-! ## Which capability impl blocks exist per concrete type

A transcription of which `impl` blocks the source file contains for each
concrete difference type; used for the negative parts of the claims
(for example `Present` has no `Monoid` and no `Abelian` block). -/

structure Caps where
  iszero : Bool
  semigroup : Bool
  monoid : Bool
  abelian : Bool
deriving DecidableEq, Repr

/-- Impl blocks for a built-in integer type `t` (lines 74-120): all get
`IsZero`/`Semigroup`/`Monoid`; only the signed list gets `Abelian`. -/
def PrimTy.caps (t : PrimTy) : Caps :=
  ⟨t.hasBuiltin, t.hasBuiltin, t.hasBuiltin, t.hasNegation⟩

/-- Impl blocks for `Present` (lines 170-183): `Multiply`, `IsZero` and
`Semigroup` only — no `Monoid` (no zero constructor), no `Abelian`. -/
def Present.caps : Caps := ⟨true, true, false, false⟩

/-! ## Tuples (`tuple_implementation!`, lines 186-247)

Instantiated at arities 0, 1, 2, 3 and 4. Each capability is lifted
componentwise; the component operations are passed explicitly, standing
for the component types' trait implementations. `is_zero` mirrors the
source's fold `let mut zero = true; zero &= name.is_zero(); ...`. -/

namespace Tuple0

/-- Arity-0 `is_zero`: the fold over no components, `let mut zero = true`. -/
def is_zero (_ : Unit) : Bool := true

/-- Arity-0 `plus_equals`: no components, the receiver is unchanged. -/
def plus_equals (self : Unit) (_ : Unit) : Unit := self

/-- Arity-0 `zero`: the empty tuple. -/
def zero : Unit := ()

/-- Arity-0 `negate`: no components, the receiver is unchanged. -/
def negate (self : Unit) : Unit := self

/-- Arity-0 `multiply`: the empty tuple of per-component outputs. -/
def multiply {T : Type} (_ : Unit) (_ : T) : Unit := ()

end Tuple0

namespace Tuple1

/-- Arity-1 `is_zero`: `true &= a.is_zero()`. -/
def is_zero {α : Type} (za : α → Bool) (x : α) : Bool := true && za x

/-- Arity-1 `plus_equals`. -/
def plus_equals {α : Type} (pa : α → α → α) (x rhs : α) : α := pa x rhs

/-- Arity-1 `zero`. -/
def zero {α : Type} (za : α) : α := za

/-- Arity-1 `negate`. -/
def negate {α : Type} (na : α → α) (x : α) : α := na x

/-- Arity-1 `multiply`. -/
def multiply {α T γ : Type} (ma : α → T → γ) (x : α) (rhs : T) : γ := ma x rhs

end Tuple1

namespace Tuple2

/-- Pair `is_zero`: `(true &= a.is_zero()) &= b.is_zero()`. -/
def is_zero {α β : Type} (za : α → Bool) (zb : β → Bool) (x : α × β) : Bool :=
  (true && za x.1) && zb x.2

/-- Pair `plus_equals`: each component's addition applied independently. -/
def plus_equals {α β : Type} (pa : α → α → α) (pb : β → β → β)
    (x rhs : α × β) : α × β :=
  (pa x.1 rhs.1, pb x.2 rhs.2)

/-- Pair `zero`: the tuple of component zeros. -/
def zero {α β : Type} (za : α) (zb : β) : α × β := (za, zb)

/-- Pair `negate`: each component negated independently. -/
def negate {α β : Type} (na : α → α) (nb : β → β) (x : α × β) : α × β :=
  (na x.1, nb x.2)

/-- Pair `multiply`: the same right operand applied to every component. -/
def multiply {α β T γ δ : Type} (ma : α → T → γ) (mb : β → T → δ)
    (x : α × β) (rhs : T) : γ × δ :=
  (ma x.1 rhs, mb x.2 rhs)

end Tuple2

namespace Tuple3

/-- Triple `is_zero`: the fold `((true &= a) &= b) &= c` over zero tests. -/
def is_zero {α β γ : Type} (za : α → Bool) (zb : β → Bool) (zc : γ → Bool)
    (x : α × β × γ) : Bool :=
  ((true && za x.1) && zb x.2.1) && zc x.2.2

/-- Triple `plus_equals`. -/
def plus_equals {α β γ : Type} (pa : α → α → α) (pb : β → β → β)
    (pc : γ → γ → γ) (x rhs : α × β × γ) : α × β × γ :=
  (pa x.1 rhs.1, pb x.2.1 rhs.2.1, pc x.2.2 rhs.2.2)

/-- Triple `zero`. -/
def zero {α β γ : Type} (za : α) (zb : β) (zc : γ) : α × β × γ :=
  (za, zb, zc)

/-- Triple `negate`. -/
def negate {α β γ : Type} (na : α → α) (nb : β → β) (nc : γ → γ)
    (x : α × β × γ) : α × β × γ :=
  (na x.1, nb x.2.1, nc x.2.2)

/-- Triple `multiply`. -/
def multiply {α β γ T α2 β2 γ2 : Type} (ma : α → T → α2) (mb : β → T → β2)
    (mc : γ → T → γ2) (x : α × β × γ) (rhs : T) : α2 × β2 × γ2 :=
  (ma x.1 rhs, mb x.2.1 rhs, mc x.2.2 rhs)

end Tuple3

namespace Tuple4

/-- Quadruple `is_zero`: the fold `(((true &= a) &= b) &= c) &= d`. -/
def is_zero {α β γ δ : Type} (za : α → Bool) (zb : β → Bool)
    (zc : γ → Bool) (zd : δ → Bool) (x : α × β × γ × δ) : Bool :=
  (((true && za x.1) && zb x.2.1) && zc x.2.2.1) && zd x.2.2.2

/-- Quadruple `plus_equals`. -/
def plus_equals {α β γ δ : Type} (pa : α → α → α) (pb : β → β → β)
    (pc : γ → γ → γ) (pd : δ → δ → δ)
    (x rhs : α × β × γ × δ) : α × β × γ × δ :=
  (pa x.1 rhs.1, pb x.2.1 rhs.2.1, pc x.2.2.1 rhs.2.2.1, pd x.2.2.2 rhs.2.2.2)

/-- Quadruple `zero`. -/
def zero {α β γ δ : Type} (za : α) (zb : β) (zc : γ) (zd : δ) :
    α × β × γ × δ :=
  (za, zb, zc, zd)

/-- Quadruple `negate`. -/
def negate {α β γ δ : Type} (na : α → α) (nb : β → β) (nc : γ → γ)
    (nd : δ → δ) (x : α × β × γ × δ) : α × β × γ × δ :=
  (na x.1, nb x.2.1, nc x.2.2.1, nd x.2.2.2)

/-- Quadruple `multiply`. -/
def multiply {α β γ δ T α2 β2 γ2 δ2 : Type} (ma : α → T → α2)
    (mb : β → T → β2) (mc : γ → T → γ2) (md : δ → T → δ2)
    (x : α × β × γ × δ) (rhs : T) : α2 × β2 × γ2 × δ2 :=
  (ma x.1 rhs, mb x.2.1 rhs, mc x.2.2.1 rhs, md x.2.2.2 rhs)

end Tuple4

/-! ## Vectors (`mod vector`, lines 249-315)

`Vec<R>` is modelled as `List R`; the component type's trait methods are
passed explicitly. `plus_equals` follows the source algorithm on
`Semigroup<[R]>` (lines 266-279): pairwise addition over the common
prefix, then cloning of the leftover right-hand elements. The
`Semigroup<Self>` impl (lines 260-264) forwards to it. -/

namespace Vec

/-- Source: `fn is_zero(&self) -> bool { self.iter().all(|x| x.is_zero()) }`. -/
def is_zero {R : Type} (z : R → Bool) (xs : List R) : Bool := xs.all z

/-- Source, lines 267-278: for indices below `self.len()`, add the
corresponding `rhs` element into `self[index]`; then, while `self` is
shorter than `rhs`, push a clone of `rhs[self.len()]`. -/
def plus_equals {R : Type} (plus : R → R → R) : List R → List R → List R
  | xs, [] => xs
  | [], y :: ys => y :: plus_equals plus [] ys
  | x :: xs, y :: ys => plus x y :: plus_equals plus xs ys

/-- Source: `fn zero() -> Self { Self::new() }` — the empty vector. -/
def zero {R : Type} : List R := []

/-- Source: `fn negate(&mut self) { for update in self.iter_mut() { update.negate(); } }`. -/
def negate {R : Type} (neg : R → R) (xs : List R) : List R := xs.map neg

/-- Source: `fn multiply(self, rhs: &T) -> Self::Output { self.into_iter().map(|x| x.multiply(rhs)).collect() }`. -/
def multiply {R T S : Type} (m : R → T → S) (xs : List R) (rhs : T) : List S :=
  xs.map (fun x => m x rhs)

end Vec

/-! ## The blanket reference-forwarding impl (lines 42-47)

`impl<'a, S, T: Semigroup<S>> Semigroup<&'a S> for T` forwards
`plus_equals(&mut self, rhs: &&'a S)` to `self.plus_equals(&**rhs)`.
A borrow `&'a S` is modelled by a one-field wrapper `Ref S`, and a
`Semigroup<Rhs>` implementation by its `plus_equals` function. -/

structure Ref (α : Type) where
  deref : α

/-- A `Semigroup<S>` implementation for `T`: its `plus_equals` method. -/
structure SemigroupImpl (T S : Type) where
  plus_equals : T → S → T

/-- The blanket impl: given `T: Semigroup<S>`, the derived
`Semigroup<&'a S>` whose `plus_equals` dereferences and forwards. -/
def refSemigroup {T S : Type} (ops : SemigroupImpl T S) :
    SemigroupImpl T (Ref S) :=
  ⟨fun x r => ops.plus_equals x r.deref⟩

/-! ## Arithmetic helper lemmas about `wrap` -/

namespace SignedInt

theorem two_pow_split {w : Nat} (hw : 0 < w) :
    (2 : Int) ^ w = 2 ^ (w - 1) * 2 := by
  conv_lhs => rw [show w = (w - 1) + 1 from by omega]
  rw [pow_succ]

theorem half_pos (w : Nat) : (0 : Int) < 2 ^ (w - 1) := by positivity

theorem half_lt_full {w : Nat} (hw : 0 < w) :
    (2 : Int) ^ (w - 1) < 2 ^ w := by
  rw [two_pow_split hw]
  have := half_pos w
  omega

/-- A value already in the signed range is left unchanged by `wrap`. -/
theorem wrap_eq_self {w : Nat} {x : Int} (hw : 0 < w)
    (hlo : -(2 ^ (w - 1)) ≤ x) (hhi : x < 2 ^ (w - 1)) : wrap w x = x := by
  unfold wrap
  have hsplit := two_pow_split hw
  have h1 : (0 : Int) ≤ x + 2 ^ (w - 1) := by omega
  have h2 : x + 2 ^ (w - 1) < 2 ^ w := by omega
  rw [Int.emod_eq_of_lt h1 h2]
  omega

theorem wrap_zero {w : Nat} (hw : 0 < w) : wrap w 0 = 0 :=
  wrap_eq_self hw (by have := half_pos w; omega) (half_pos w)

/-- Wrapped negation cancels against the original value: the sum wraps to
exactly zero, whatever the value (including the minimum representable one,
whose negation wraps back to itself). -/
theorem add_negate_cancel {w : Nat} (hw : 0 < w) (x : Int) :
    wrap w (wrap w (-x) + x) = 0 := by
  unfold wrap
  have key : (-x + 2 ^ (w - 1)) % 2 ^ w - 2 ^ (w - 1) + x + 2 ^ (w - 1)
      = (-x + 2 ^ (w - 1)) % 2 ^ w + x := by ring
  rw [key, Int.emod_add_emod]
  have h2 : -x + 2 ^ (w - 1) + x = 2 ^ (w - 1) := by ring
  rw [h2, Int.emod_eq_of_lt (le_of_lt (half_pos w)) (half_lt_full hw)]
  ring

/-- Adding one to the maximum representable value wraps to the minimum. -/
theorem wrap_max_add_one {w : Nat} (hw : 0 < w) :
    wrap w (2 ^ (w - 1) - 1 + 1) = -(2 ^ (w - 1)) := by
  unfold wrap
  have h2 : 2 ^ (w - 1) - 1 + 1 + 2 ^ (w - 1) = (2 : Int) ^ w := by
    rw [two_pow_split hw]; ring
  rw [h2, Int.emod_self]
  ring

/-- The result of `wrap` always lies in the signed range. -/
theorem wrap_mem_inRange {w : Nat} (hw : 0 < w) (x : Int) :
    inRange w (wrap w x) := by
  unfold wrap inRange
  have hn : (0 : Int) < 2 ^ w := by positivity
  have h1 := Int.emod_nonneg (x + 2 ^ (w - 1)) (ne_of_gt hn)
  have h2 := Int.emod_lt_of_pos (x + 2 ^ (w - 1)) hn
  have hsplit := two_pow_split hw
  omega

end SignedInt


/-! ## Supporting lemmas about `Vec.plus_equals` -/

namespace Vec

theorem plus_equals_nil_right {R : Type} (plus : R → R → R) (xs : List R) :
    plus_equals plus xs [] = xs := by
  cases xs <;> rfl

theorem plus_equals_nil_left {R : Type} (plus : R → R → R) (ys : List R) :
    plus_equals plus [] ys = ys := by
  induction ys with
  | nil => rfl
  | cons y ys ih => simp [plus_equals, ih]

theorem length_plus_equals {R : Type} (plus : R → R → R) :
    ∀ xs ys : List R,
      (plus_equals plus xs ys).length = max xs.length ys.length := by
  intro xs
  induction xs with
  | nil =>
    intro ys
    rw [plus_equals_nil_left]
    simp
  | cons x xs ih =>
    intro ys
    cases ys with
    | nil => rw [plus_equals_nil_right]; simp
    | cons y ys => simp [plus_equals, ih]; omega

theorem getElem_plus_equals {R : Type} (plus : R → R → R) :
    ∀ (xs ys : List R) (i : Nat) (a b : R),
      xs[i]? = some a → ys[i]? = some b →
      (plus_equals plus xs ys)[i]? = some (plus a b) := by
  intro xs
  induction xs with
  | nil => intro ys i a b ha; simp at ha
  | cons x xs ih =>
    intro ys i a b ha hb
    cases ys with
    | nil => simp at hb
    | cons y ys =>
      cases i with
      | zero =>
        simp at ha hb
        simp [plus_equals, ha, hb]
      | succ i =>
        simp at ha hb
        simpa [plus_equals] using ih ys i a b ha hb

theorem getElem_plus_equals_of_le {R : Type} (plus : R → R → R) :
    ∀ (xs ys : List R) (i : Nat), xs.length ≤ i →
      (plus_equals plus xs ys)[i]? = ys[i]? := by
  intro xs
  induction xs with
  | nil => intro ys i _; rw [plus_equals_nil_left]
  | cons x xs ih =>
    intro ys i hi
    cases ys with
    | nil =>
      rw [plus_equals_nil_right]
      have h1 : (x :: xs)[i]? = none := by
        rw [List.getElem?_eq_none_iff]; simpa using hi
      rw [h1]
      simp
    | cons y ys =>
      cases i with
      | zero => simp at hi
      | succ i =>
        have hi2 : xs.length ≤ i := by simpa using hi
        simpa [plus_equals] using ih ys i hi2

theorem is_zero_plus_equals_negate {R : Type} (isZ : R → Bool)
    (plus : R → R → R) (neg : R → R)
    (hcancel : ∀ a, isZ (plus (neg a) a) = true) :
    ∀ xs : List R, is_zero isZ (plus_equals plus (negate neg xs) xs) = true := by
  intro xs
  induction xs with
  | nil => rfl
  | cons x xs ih =>
    simp only [negate, List.map_cons, plus_equals, is_zero, List.all_cons] at *
    simp [hcancel x, ih]

end Vec

/-! ## Claim theorems -/

/-- C1: for `Vec<R>` with `R: Semigroup`, `plus_equals` of a right-hand
sequence into a left-hand sequence adds the right element at index `i`
into the left element at index `i` for every `i` below the shorter of the
two lengths, appends a clone of each remaining right-hand element (so
positions at or beyond the left length hold the right-hand elements), and
the result has length `max(len(left), len(right))`; concretely
`[1,2,3] + [1,1,1,1] = [2,3,4,1]`, `[5,5] + [1,2] = [6,7]` and
`[] + [9,9] = [9,9]`. -/
theorem vec_plus_equals_spec :
    (∀ (R : Type) (plus : R → R → R) (xs ys : List R),
        (Vec.plus_equals plus xs ys).length = max xs.length ys.length)
  ∧ (∀ (R : Type) (plus : R → R → R) (xs ys : List R) (i : Nat) (a b : R),
        xs[i]? = some a → ys[i]? = some b →
        (Vec.plus_equals plus xs ys)[i]? = some (plus a b))
  ∧ (∀ (R : Type) (plus : R → R → R) (xs ys : List R) (i : Nat),
        xs.length ≤ i → (Vec.plus_equals plus xs ys)[i]? = ys[i]?)
  ∧ Vec.plus_equals (fun a b : Int => a + b) [1, 2, 3] [1, 1, 1, 1] = [2, 3, 4, 1]
  ∧ Vec.plus_equals (fun a b : Int => a + b) [5, 5] [1, 2] = [6, 7]
  ∧ Vec.plus_equals (fun a b : Int => a + b) [] [9, 9] = [9, 9] := by
  refine ⟨?_, ?_, ?_, by decide, by decide, by decide⟩
  · intro R plus xs ys; exact Vec.length_plus_equals plus xs ys
  · intro R plus xs ys i a b ha hb
    exact Vec.getElem_plus_equals plus xs ys i a b ha hb
  · intro R plus xs ys i hi
    exact Vec.getElem_plus_equals_of_le plus xs ys i hi

/-- Witness for C1: the pairwise-sum conjunct applied at index 1 of
`[1,2,3] + [1,1,1,1]`, with both index hypotheses discharged. -/
theorem vec_plus_equals_spec_witness :
    ([1, 2, 3] : List Int)[1]? = some 2 ∧ ([1, 1, 1, 1] : List Int)[1]? = some 1 ∧
    (Vec.plus_equals (fun a b : Int => a + b) [1, 2, 3] [1, 1, 1, 1])[1]? = some 3 :=
  ⟨by decide, by decide,
    vec_plus_equals_spec.2.1 Int (fun a b => a + b) [1, 2, 3] [1, 1, 1, 1] 1 2 1
      (by decide) (by decide)⟩

/-- C2: for every Abelian-capable value `x` — any value of a signed
primitive integer type, a wrapping signed integer type, or a tuple or
`Vec` of Abelian components — negating and then adding the original value
back yields a value whose `is_zero` test returns true. -/
theorem abelian_negate_plus_is_zero :
    (∀ (w : Nat) (x : Int), 0 < w → SignedInt.inRange w x →
        SignedInt.is_zero
          (SignedInt.plus_equals w (SignedInt.negate w x) x) = true)
  ∧ (∀ (w : Nat) (x : Int), 0 < w → SignedInt.inRange w x →
        WrappingInt.is_zero
          (WrappingInt.plus_equals w (WrappingInt.negate w x) x) = true)
  ∧ (∀ (α β : Type) (isZa : α → Bool) (isZb : β → Bool)
        (pa : α → α → α) (pb : β → β → β) (na : α → α) (nb : β → β),
        (∀ a, isZa (pa (na a) a) = true) →
        (∀ b, isZb (pb (nb b) b) = true) →
        ∀ x : α × β,
          Tuple2.is_zero isZa isZb
            (Tuple2.plus_equals pa pb (Tuple2.negate na nb x) x) = true)
  ∧ (∀ (R : Type) (isZ : R → Bool) (plus : R → R → R) (neg : R → R),
        (∀ a, isZ (plus (neg a) a) = true) →
        ∀ xs : List R,
          Vec.is_zero isZ
            (Vec.plus_equals plus (Vec.negate neg xs) xs) = true) := by
  refine ⟨?_, ?_, ?_, ?_⟩
  · intro w x hw _
    simp [SignedInt.is_zero, SignedInt.plus_equals, SignedInt.negate,
      SignedInt.add_negate_cancel hw]
  · intro w x hw _
    simp [WrappingInt.is_zero, WrappingInt.plus_equals, WrappingInt.negate,
      SignedInt.add_negate_cancel hw]
  · intro α β isZa isZb pa pb na nb ha hb x
    simp [Tuple2.is_zero, Tuple2.plus_equals, Tuple2.negate, ha, hb]
  · intro R isZ plus neg hcancel xs
    exact Vec.is_zero_plus_equals_negate isZ plus neg hcancel xs

/-- Witness for C2: the signed-integer conjunct at width 8 applied to the
minimum representable value `-128`, whose negation wraps back to itself
and still cancels to zero. -/
theorem abelian_negate_plus_is_zero_witness :
    (0 < 8 ∧ SignedInt.inRange 8 (-128)) ∧
    SignedInt.is_zero
      (SignedInt.plus_equals 8 (SignedInt.negate 8 (-128)) (-128)) = true :=
  ⟨⟨by decide, by decide⟩,
    abelian_negate_plus_is_zero.1 8 (-128) (by decide) (by decide)⟩

/-- C3: for every Monoid-capable type — signed and unsigned primitive
integers, wrapping integers, tuples of Monoids, and `Vec`, whose zero is
the empty vector — `is_zero(zero())` is true and adding `zero()` on the
right leaves every value unchanged. -/
theorem monoid_zero_right_identity :
    (SignedInt.is_zero SignedInt.zero = true)
  ∧ (∀ (w : Nat) (x : Int), 0 < w → SignedInt.inRange w x →
        SignedInt.plus_equals w x SignedInt.zero = x)
  ∧ (UnsignedInt.is_zero UnsignedInt.zero = true)
  ∧ (∀ (w : Nat) (x : Nat), UnsignedInt.inRange w x →
        UnsignedInt.plus_equals w x UnsignedInt.zero = x)
  ∧ (WrappingInt.is_zero WrappingInt.zero = true)
  ∧ (∀ (w : Nat) (x : Int), 0 < w → SignedInt.inRange w x →
        WrappingInt.plus_equals w x WrappingInt.zero = x)
  ∧ (∀ (α β : Type) (isZa : α → Bool) (isZb : β → Bool) (za : α) (zb : β),
        isZa za = true → isZb zb = true →
        Tuple2.is_zero isZa isZb (Tuple2.zero za zb) = true)
  ∧ (∀ (α β : Type) (pa : α → α → α) (pb : β → β → β) (za : α) (zb : β),
        (∀ a, pa a za = a) → (∀ b, pb b zb = b) →
        ∀ x : α × β, Tuple2.plus_equals pa pb x (Tuple2.zero za zb) = x)
  ∧ (∀ (R : Type) (isZ : R → Bool), Vec.is_zero isZ (Vec.zero (R := R)) = true)
  ∧ (∀ (R : Type) (plus : R → R → R) (xs : List R),
        Vec.plus_equals plus xs Vec.zero = xs) := by
  refine ⟨rfl, ?_, rfl, ?_, rfl, ?_, ?_, ?_, ?_, ?_⟩
  · intro w x hw hx
    simp only [SignedInt.plus_equals, SignedInt.zero, add_zero]
    exact SignedInt.wrap_eq_self hw hx.1 hx.2
  · intro w x hx
    simp only [UnsignedInt.plus_equals, UnsignedInt.zero, add_zero]
    exact Nat.mod_eq_of_lt hx
  · intro w x hw hx
    simp only [WrappingInt.plus_equals, WrappingInt.zero, add_zero]
    exact SignedInt.wrap_eq_self hw hx.1 hx.2
  · intro α β isZa isZb za zb ha hb
    simp [Tuple2.is_zero, Tuple2.zero, ha, hb]
  · intro α β pa pb za zb ha hb x
    simp [Tuple2.plus_equals, Tuple2.zero, ha, hb]
  · intro R isZ; rfl
  · intro R plus xs; exact Vec.plus_equals_nil_right plus xs

/-- Witness for C3: the signed conjunct at width 16 and value 57, and the
tuple conjunct at integer components. -/
theorem monoid_zero_right_identity_witness :
    SignedInt.inRange 16 57 ∧
    SignedInt.plus_equals 16 57 SignedInt.zero = 57 :=
  ⟨by decide, monoid_zero_right_identity.2.1 16 57 (by decide) (by decide)⟩

/-- C10: `zero()` is also a left identity: for every Monoid-capable value
`x` — primitive integers, wrapping integers, tuples, and `Vec` — starting
from `zero()` and adding `x` reproduces `x`; for `Vec` the empty vector
grows by cloning every element of `x`, reproducing `x` exactly. -/
theorem monoid_zero_left_identity :
    (∀ (w : Nat) (x : Int), 0 < w → SignedInt.inRange w x →
        SignedInt.plus_equals w SignedInt.zero x = x)
  ∧ (∀ (w : Nat) (x : Nat), UnsignedInt.inRange w x →
        UnsignedInt.plus_equals w UnsignedInt.zero x = x)
  ∧ (∀ (w : Nat) (x : Int), 0 < w → SignedInt.inRange w x →
        WrappingInt.plus_equals w WrappingInt.zero x = x)
  ∧ (∀ (α β : Type) (pa : α → α → α) (pb : β → β → β) (za : α) (zb : β),
        (∀ a, pa za a = a) → (∀ b, pb zb b = b) →
        ∀ x : α × β, Tuple2.plus_equals pa pb (Tuple2.zero za zb) x = x)
  ∧ (∀ (R : Type) (plus : R → R → R) (xs : List R),
        Vec.plus_equals plus Vec.zero xs = xs) := by
  refine ⟨?_, ?_, ?_, ?_, ?_⟩
  · intro w x hw hx
    simp only [SignedInt.plus_equals, SignedInt.zero, zero_add]
    exact SignedInt.wrap_eq_self hw hx.1 hx.2
  · intro w x hx
    simp only [UnsignedInt.plus_equals, UnsignedInt.zero, Nat.zero_add]
    exact Nat.mod_eq_of_lt hx
  · intro w x hw hx
    simp only [WrappingInt.plus_equals, WrappingInt.zero, zero_add]
    exact SignedInt.wrap_eq_self hw hx.1 hx.2
  · intro α β pa pb za zb ha hb x
    simp [Tuple2.plus_equals, Tuple2.zero, ha, hb]
  · intro R plus xs; exact Vec.plus_equals_nil_left plus xs

/-- Witness for C10: the `Vec` conjunct is hypothesis-free; the signed
conjunct applied at width 8 and value `-100`. -/
theorem monoid_zero_left_identity_witness :
    SignedInt.inRange 8 (-100) ∧
    SignedInt.plus_equals 8 SignedInt.zero (-100) = -100 :=
  ⟨by decide, monoid_zero_left_identity.1 8 (-100) (by decide) (by decide)⟩

/-- C4: for every built-in fixed-width integer type, `is_zero` holds
exactly at the literal zero, `plus_equals` is ordinary addition (on
representable sums), `zero()` is the literal zero, `multiply` is ordinary
same-type multiplication (on representable products); negation is
provided for exactly the signed types (`negate` is arithmetic negation on
representable results), and every type gets Semigroup and Monoid while
only the signed ones get the Abelian capability. -/
theorem builtin_integer_ops_spec :
    (∀ x : Int, SignedInt.is_zero x = true ↔ x = 0)
  ∧ (∀ x : Nat, UnsignedInt.is_zero x = true ↔ x = 0)
  ∧ SignedInt.zero = 0
  ∧ UnsignedInt.zero = 0
  ∧ (∀ (w : Nat) (x y : Int), 0 < w → SignedInt.inRange w (x + y) →
        SignedInt.plus_equals w x y = x + y)
  ∧ (∀ (w : Nat) (x y : Nat), UnsignedInt.inRange w (x + y) →
        UnsignedInt.plus_equals w x y = x + y)
  ∧ (∀ (w : Nat) (x y : Int), 0 < w → SignedInt.inRange w (x * y) →
        SignedInt.multiply w x y = x * y)
  ∧ (∀ (w : Nat) (x y : Nat), UnsignedInt.inRange w (x * y) →
        UnsignedInt.multiply w x y = x * y)
  ∧ (∀ (w : Nat) (x : Int), 0 < w → SignedInt.inRange w (-x) →
        SignedInt.negate w x = -x)
  ∧ (∀ t : PrimTy, t.caps.semigroup = true ∧ t.caps.monoid = true)
  ∧ (∀ t : PrimTy, t.caps.abelian = t.signed) := by
  refine ⟨?_, ?_, rfl, rfl, ?_, ?_, ?_, ?_, ?_, ?_, ?_⟩
  · intro x; simp [SignedInt.is_zero]
  · intro x; simp [UnsignedInt.is_zero]
  · intro w x y hw hr; exact SignedInt.wrap_eq_self hw hr.1 hr.2
  · intro w x y hr; exact Nat.mod_eq_of_lt hr
  · intro w x y hw hr; exact SignedInt.wrap_eq_self hw hr.1 hr.2
  · intro w x y hr; exact Nat.mod_eq_of_lt hr
  · intro w x hw hr; exact SignedInt.wrap_eq_self hw hr.1 hr.2
  · intro t
    cases t <;> simp [PrimTy.caps, PrimTy.hasBuiltin, PrimTy.hasNegation]
  · intro t
    cases t <;> rfl

/-- Witness for C4: the signed addition conjunct at `100 + 27` in width 8,
where the sum is representable. -/
theorem builtin_integer_ops_spec_witness :
    SignedInt.inRange 8 (100 + 27) ∧
    SignedInt.plus_equals 8 100 27 = 100 + 27 :=
  ⟨by decide,
    (builtin_integer_ops_spec.2.2.2.2.1) 8 100 27 (by decide) (by decide)⟩

/-- C5: the wrapping signed-integer instantiations define addition and
negation modulo the bit width and never trap: adding 1 to the maximum
representable value yields the minimum representable value, negating the
minimum stays in range (wrapping back to itself), and a wrapping variant
is instantiated for exactly the signed widths. -/
theorem wrapping_integer_wraps :
    (∀ w : Nat, 0 < w →
        WrappingInt.plus_equals w (2 ^ (w - 1) - 1) 1 = -(2 ^ (w - 1)))
  ∧ WrappingInt.plus_equals 8 127 1 = -128
  ∧ WrappingInt.plus_equals 64 9223372036854775807 1 = -9223372036854775808
  ∧ (∀ w : Nat, 0 < w →
        WrappingInt.negate w (-(2 ^ (w - 1))) = -(2 ^ (w - 1)))
  ∧ (∀ (w : Nat) (x y : Int), 0 < w →
        SignedInt.inRange w (WrappingInt.plus_equals w x y)
        ∧ SignedInt.inRange w (WrappingInt.negate w x))
  ∧ (∀ t : PrimTy, t.hasWrappingVariant = t.signed) := by
  have hmax : ∀ w : Nat, 0 < w →
      WrappingInt.plus_equals w (2 ^ (w - 1) - 1) 1 = -(2 ^ (w - 1)) := by
    intro w hw
    simpa [WrappingInt.plus_equals] using SignedInt.wrap_max_add_one hw
  refine ⟨hmax, ?_, ?_, ?_, ?_, ?_⟩
  · simpa using hmax 8 (by decide)
  · simpa using hmax 64 (by decide)
  · intro w hw
    have h := SignedInt.wrap_max_add_one hw
    have h2 : (2 : Int) ^ (w - 1) - 1 + 1 = 2 ^ (w - 1) := by ring
    rw [h2] at h
    simp only [WrappingInt.negate, neg_neg]
    exact h
  · intro w x y hw
    exact ⟨SignedInt.wrap_mem_inRange hw _, SignedInt.wrap_mem_inRange hw _⟩
  · intro t; cases t <;> rfl

/-- Witness for C5: the generic wraparound conjunct instantiated at width
8: `127 + 1` wraps to `-128`. -/
theorem wrapping_integer_wraps_witness :
    (0 < 8) ∧ WrappingInt.plus_equals 8 (2 ^ (8 - 1) - 1) 1 = -(2 ^ (8 - 1)) :=
  ⟨by decide, wrapping_integer_wraps.1 8 (by decide)⟩

/-- C6: the presence marker `Present` is never zero, its addition is a
no-op leaving the receiver unchanged, its multiplication with any second
value of any type returns (a clone of) that value, and the type has no
zero constructor and no negation capability (no `Monoid` or `Abelian`
impl block exists for it). -/
theorem present_marker_spec :
    (∀ p : Present, Present.is_zero p = false)
  ∧ (∀ p q : Present, Present.plus_equals p q = p)
  ∧ (∀ (T : Type) (v : T), Present.multiply Present.mk v = v)
  ∧ Present.caps.semigroup = true
  ∧ Present.caps.monoid = false
  ∧ Present.caps.abelian = false :=
  ⟨fun _ => rfl, fun _ _ => rfl, fun _ _ => rfl, rfl, rfl, rfl⟩

/-- C7: for tuples of up to four components, every capability is lifted
componentwise: `is_zero` is the logical AND of the components' zero
tests, `plus_equals` adds componentwise, `zero()` builds the tuple of
component zeros, `negate` negates each component independently, and
`multiply` applies the single second value to every component, producing
the tuple of per-component outputs. -/
theorem tuple_componentwise_spec :
    (∀ (α β : Type) (za : α → Bool) (zb : β → Bool) (a : α) (b : β),
        Tuple2.is_zero za zb (a, b) = (za a && zb b))
  ∧ (∀ (α β : Type) (pa : α → α → α) (pb : β → β → β)
        (a a2 : α) (b b2 : β),
        Tuple2.plus_equals pa pb (a, b) (a2, b2) = (pa a a2, pb b b2))
  ∧ (∀ (α β : Type) (za : α) (zb : β), Tuple2.zero za zb = (za, zb))
  ∧ (∀ (α β : Type) (na : α → α) (nb : β → β) (a : α) (b : β),
        Tuple2.negate na nb (a, b) = (na a, nb b))
  ∧ (∀ (α β T γ δ : Type) (ma : α → T → γ) (mb : β → T → δ)
        (a : α) (b : β) (v : T),
        Tuple2.multiply ma mb (a, b) v = (ma a v, mb b v))
  ∧ (∀ (α β γ : Type) (za : α → Bool) (zb : β → Bool) (zc : γ → Bool)
        (a : α) (b : β) (c : γ),
        Tuple3.is_zero za zb zc (a, b, c) = (za a && zb b && zc c))
  ∧ (∀ (α β γ : Type) (pa : α → α → α) (pb : β → β → β) (pc : γ → γ → γ)
        (a a2 : α) (b b2 : β) (c c2 : γ),
        Tuple3.plus_equals pa pb pc (a, b, c) (a2, b2, c2)
          = (pa a a2, pb b b2, pc c c2))
  ∧ (∀ (α β γ : Type) (na : α → α) (nb : β → β) (nc : γ → γ)
        (a : α) (b : β) (c : γ),
        Tuple3.negate na nb nc (a, b, c) = (na a, nb b, nc c))
  ∧ (∀ (α β γ : Type) (za : α) (zb : β) (zc : γ),
        Tuple3.zero za zb zc = (za, zb, zc))
  ∧ (∀ (α β γ T α2 β2 γ2 : Type) (ma : α → T → α2) (mb : β → T → β2)
        (mc : γ → T → γ2) (a : α) (b : β) (c : γ) (v : T),
        Tuple3.multiply ma mb mc (a, b, c) v = (ma a v, mb b v, mc c v))
  ∧ (∀ (α β γ δ : Type) (za : α → Bool) (zb : β → Bool) (zc : γ → Bool)
        (zd : δ → Bool) (a : α) (b : β) (c : γ) (d : δ),
        Tuple4.is_zero za zb zc zd (a, b, c, d)
          = (za a && zb b && zc c && zd d))
  ∧ (∀ (α β γ δ : Type) (pa : α → α → α) (pb : β → β → β) (pc : γ → γ → γ)
        (pd : δ → δ → δ) (a a2 : α) (b b2 : β) (c c2 : γ) (d d2 : δ),
        Tuple4.plus_equals pa pb pc pd (a, b, c, d) (a2, b2, c2, d2)
          = (pa a a2, pb b b2, pc c c2, pd d d2))
  ∧ (∀ (α β γ δ : Type) (na : α → α) (nb : β → β) (nc : γ → γ)
        (nd : δ → δ) (a : α) (b : β) (c : γ) (d : δ),
        Tuple4.negate na nb nc nd (a, b, c, d) = (na a, nb b, nc c, nd d))
  ∧ (∀ (α β γ δ : Type) (za : α) (zb : β) (zc : γ) (zd : δ),
        Tuple4.zero za zb zc zd = (za, zb, zc, zd))
  ∧ (∀ (α β γ δ T α2 β2 γ2 δ2 : Type) (ma : α → T → α2) (mb : β → T → β2)
        (mc : γ → T → γ2) (md : δ → T → δ2)
        (a : α) (b : β) (c : γ) (d : δ) (v : T),
        Tuple4.multiply ma mb mc md (a, b, c, d) v
          = (ma a v, mb b v, mc c v, md d v)) := by
  refine ⟨?_, ?_, ?_, ?_, ?_, ?_, ?_, ?_, ?_, ?_, ?_, ?_, ?_, ?_, ?_⟩
  · intro α β za zb a b; simp [Tuple2.is_zero]
  · intro α β pa pb a a2 b b2; rfl
  · intro α β za zb; rfl
  · intro α β na nb a b; rfl
  · intro α β T γ δ ma mb a b v; rfl
  · intro α β γ za zb zc a b c; simp [Tuple3.is_zero, Bool.and_assoc]
  · intro α β γ pa pb pc a a2 b b2 c c2; rfl
  · intro α β γ na nb nc a b c; rfl
  · intro α β γ za zb zc; rfl
  · intro α β γ T α2 β2 γ2 ma mb mc a b c v; rfl
  · intro α β γ δ za zb zc zd a b c d
    simp [Tuple4.is_zero, Bool.and_assoc]
  · intro α β γ δ pa pb pc pd a a2 b b2 c c2 d d2; rfl
  · intro α β γ δ na nb nc nd a b c d; rfl
  · intro α β γ δ za zb zc zd; rfl
  · intro α β γ δ T α2 β2 γ2 δ2 ma mb mc md a b c d v; rfl

/-- C8: the blanket forwarding implementation of `Semigroup` over a
reference-to-reference operand has exactly the semantics of the direct
call: forwarding through the dereference changes nothing. -/
theorem ref_forwarding_preserves_semantics :
    ∀ (T S : Type) (ops : SemigroupImpl T S) (x : T) (r : Ref S),
      (refSemigroup ops).plus_equals x r = ops.plus_equals x r.deref := by
  intro T S ops x r
  rfl

/-- C9: the empty tuple `()` implements every capability degenerately:
`is_zero` always true, `plus_equals` a no-op, `zero()` returns `()`,
`negate` a no-op, and `multiply` against any value returns `()`; so `()`
is a difference type that is always zero. -/
theorem unit_tuple_spec :
    (∀ u : Unit, Tuple0.is_zero u = true)
  ∧ (∀ u v : Unit, Tuple0.plus_equals u v = u)
  ∧ Tuple0.zero = ()
  ∧ (∀ u : Unit, Tuple0.negate u = u)
  ∧ (∀ (T : Type) (u : Unit) (v : T), Tuple0.multiply u v = ())
  ∧ Tuple0.is_zero Tuple0.zero = true :=
  ⟨fun _ => rfl, fun _ _ => rfl, rfl, fun _ => rfl, fun _ _ _ => rfl, rfl⟩
